import Mathlib

/-!
Verification development for the fastembed-rs text-embedding core
(`src/lib.rs`).  The Rust source is shallowly embedded below:

* pure functions become Lean functions over `List`/`Nat`/`Int`/`ℚ`;
* `f32` values are modelled as rationals, and the opaque `f32::sqrt`
  intrinsic as an explicit function argument;
* fallible Rust code (`Result` + `?`) is modelled with an `Outcome`
  type carrying an explicit `panic` constructor, because several call
  sites in the source use `.unwrap()` / `.expect(..)`, whose failure
  aborts the call by panicking instead of returning an error value;
* the external collaborators (huggingface tokenizer, onnxruntime
  session) are modelled as record fields holding opaque functions,
  exactly the contracts the source consumes.
-/

namespace FastEmbed

/-- Result of running a piece of Rust code that may
(a) return normally, (b) return an error value (`Result::Err`), or
(c) panic (from `unwrap`/`expect`/indexing/assertions).  A panic does
not hand anything back to the caller. -/
inductive Outcome (ε α : Type) : Type where
  | ok : α → Outcome ε α
  | err : ε → Outcome ε α
  | panic : Outcome ε α
deriving DecidableEq, Repr

/-- The list a batch worker contributed if it succeeded, `[]` otherwise.
Used only to describe the shape of successful results. -/
def okList {ε α : Type} : Outcome ε (List α) → List α
  | .ok l => l
  | .err _ => []
  | .panic => []

/-- Model of `.flat_map(|result| result.unwrap()).collect()` (lib.rs
line 459): concatenates the per-batch result lists in batch order, and
panics as soon as any per-batch result is not `Ok` (that is what
`Result::unwrap` does).  A panic anywhere aborts the whole collection,
so no partial output ever escapes. -/
def collectUnwrap {ε α : Type} : List (Outcome ε (List α)) → Outcome ε (List α)
  | [] => .ok []
  | .ok l :: rest =>
    match collectUnwrap rest with
    | .ok ls => .ok (l ++ ls)
    | _ => .panic
  | .err _ :: _ => .panic
  | .panic :: _ => .panic

/-- Fuel-indexed worker for `chunksList`; structural recursion on the
fuel keeps the definition kernel-reducible.  With `fuel ≥ l.length` and
a positive chunk size the fuel never runs out. -/
def chunksFuel {α : Type} (B : Nat) : Nat → List α → List (List α)
  | _, [] => []
  | 0, l => [l]
  | fuel + 1, x :: xs => (x :: xs.take (B - 1)) :: chunksFuel B fuel (xs.drop (B - 1))

/-- Model of rayon's `par_chunks(B)` view of a slice (lib.rs line 395):
the list of contiguous chunks, every chunk of size `B` except possibly
the last.  Rayon's `collect` on an indexed parallel iterator reassembles
results in chunk order no matter which worker finishes first, so the
parallel map over these chunks is modelled as an ordered `List.map`. -/
def chunksList {α : Type} (B : Nat) (l : List α) : List (List α) :=
  chunksFuel B l.length l

theorem chunksFuel_flatten {α : Type} (B : Nat) :
    ∀ (fuel : Nat) (l : List α), (chunksFuel B fuel l).flatten = l := by
  intro fuel
  induction fuel with
  | zero =>
    intro l
    cases l with
    | nil => simp [chunksFuel]
    | cons x xs => simp [chunksFuel]
  | succ f ih =>
    intro l
    cases l with
    | nil => simp [chunksFuel]
    | cons x xs =>
      simp only [chunksFuel, List.flatten_cons, ih]
      simp [List.take_append_drop]

theorem chunksList_flatten {α : Type} (B : Nat) (l : List α) :
    (chunksList B l).flatten = l :=
  chunksFuel_flatten B l.length l

theorem chunksFuel_eq_nil_iff {α : Type} (B fuel : Nat) (l : List α) :
    chunksFuel B fuel l = [] ↔ l = [] := by
  cases l with
  | nil => cases fuel <;> simp [chunksFuel]
  | cons x xs => cases fuel <;> simp [chunksFuel]

theorem chunksFuel_length {α : Type} (B : Nat) (hB : 0 < B) :
    ∀ (fuel : Nat) (l : List α), l.length ≤ fuel →
      (chunksFuel B fuel l).length = (l.length + B - 1) / B := by
  intro fuel
  induction fuel with
  | zero =>
    intro l hl
    have : l = [] := List.length_eq_zero.mp (Nat.le_zero.mp hl)
    subst this
    simp only [chunksFuel, List.length_nil]
    rw [Nat.div_eq_of_lt (by omega)]
  | succ f ih =>
    intro l hl
    cases l with
    | nil =>
      simp [chunksFuel]
      rw [Nat.div_eq_of_lt (by omega)]
    | cons x xs =>
      simp only [chunksFuel, List.length_cons]
      have hdrop : (xs.drop (B - 1)).length ≤ f := by
        simp only [List.length_drop]
        simp only [List.length_cons] at hl
        omega
      rw [ih (xs.drop (B - 1)) hdrop]
      simp only [List.length_drop]
      have hrhs : xs.length + 1 + B - 1 = xs.length + B := by omega
      rw [hrhs, Nat.add_div_right _ hB]
      rcases le_or_lt (B - 1) xs.length with h | h
      · have : xs.length - (B - 1) + B - 1 = xs.length := by omega
        rw [this]
      · have h0 : xs.length - (B - 1) = 0 := by omega
        rw [h0]
        rw [Nat.div_eq_of_lt (by omega), Nat.div_eq_of_lt (by omega)]

theorem chunksFuel_mem_bound {α : Type} (B : Nat) (hB : 0 < B) :
    ∀ (fuel : Nat) (l : List α), l.length ≤ fuel →
      ∀ c ∈ chunksFuel B fuel l, c.length ≤ B ∧ c ≠ [] := by
  intro fuel
  induction fuel with
  | zero =>
    intro l hl
    have : l = [] := List.length_eq_zero.mp (Nat.le_zero.mp hl)
    subst this
    simp [chunksFuel]
  | succ f ih =>
    intro l hl c hc
    cases l with
    | nil => simp [chunksFuel] at hc
    | cons x xs =>
      simp only [chunksFuel, List.mem_cons] at hc
      rcases hc with hc | hc
      · subst hc
        constructor
        · simp only [List.length_cons, List.length_take]
          omega
        · simp
      · refine ih (xs.drop (B - 1)) ?_ c hc
        simp only [List.length_drop]
        simp only [List.length_cons] at hl
        omega

theorem chunksFuel_take_len {α : Type} (B : Nat) (hB : 0 < B) :
    ∀ (fuel : Nat) (l : List α) (i : Nat), l.length ≤ fuel →
      i + 1 < (chunksFuel B fuel l).length →
      ((chunksFuel B fuel l)[i]?).map List.length = some B := by
  intro fuel
  induction fuel with
  | zero =>
    intro l i hl hi
    have : l = [] := List.length_eq_zero.mp (Nat.le_zero.mp hl)
    subst this
    simp [chunksFuel] at hi
  | succ f ih =>
    intro l i hl hi
    cases l with
    | nil => simp [chunksFuel] at hi
    | cons x xs =>
      simp only [chunksFuel] at hi ⊢
      cases i with
      | zero =>
        simp only [List.length_cons] at hi
        have hrest : chunksFuel B f (xs.drop (B - 1)) ≠ [] := by
          intro hnil
          rw [hnil] at hi
          simp at hi
        have hdrop : xs.drop (B - 1) ≠ [] := by
          intro hnil
          exact hrest ((chunksFuel_eq_nil_iff B f _).mpr hnil)
        have hlen : B - 1 < xs.length := by
          by_contra hcon
          exact hdrop (List.drop_eq_nil_of_le (by omega))
        simp [List.length_take]
        omega
      | succ j =>
        simp only [List.getElem?_cons_succ]
        refine ih (xs.drop (B - 1)) j ?_ ?_
        · simp only [List.length_drop]
          simp only [List.length_cons] at hl
          omega
        · simpa using hi

/-- Epsilon constant of `normalize` from lib.rs line 478 (`1e-12`). -/
def epsilon : ℚ := 1 / 10 ^ 12

/-- Model of `fn normalize(v: &[f32]) -> Vec<f32>` (lib.rs lines
476-482).  `f32` values are modelled as rationals and the opaque
`f32::sqrt` intrinsic is passed in explicitly; the function builds
`norm = sqrt(Σ vᵢ²)` and divides every element by `norm + epsilon`.
It reads nothing but its arguments and writes nothing: it is pure and
deterministic by construction. -/
def normalize (sqrt : ℚ → ℚ) (v : List ℚ) : List ℚ :=
  let norm := sqrt ((v.map (fun val => val * val)).sum)
  v.map (fun val => val / (norm + epsilon))

/-- Minimal model of a parsed `serde_json::Value`.  Numbers are carried
as rationals (`f64` payloads are rationals; every finite float is one). -/
inductive Json : Type where
  | null : Json
  | bool : Bool → Json
  | num : ℚ → Json
  | str : String → Json
  | arr : List Json → Json
  | obj : List (String × Json) → Json

/-- Indexing `value["key"]`: serde's `Index<&str>` returns the field when the
value is an object containing the key, and `Null` otherwise. -/
def Json.index (j : Json) (key : String) : Json :=
  match j with
  | .obj fields => (fields.lookup key).getD .null
  | _ => .null

/-- Model of `Value::as_f64`: any JSON number converts. -/
def Json.as_f64 : Json → Option ℚ
  | .num q => some q
  | _ => none

/-- Model of `Value::as_u64`: only numbers that are nonnegative integers fitting
in 64 bits. -/
def Json.as_u64 : Json → Option Nat
  | .num q => if q.den = 1 ∧ 0 ≤ q.num ∧ q.num < 2 ^ 64 then some q.num.toNat else none
  | _ => none

/-- Model of `Value::as_str`. -/
def Json.as_str : Json → Option String
  | .str s => some s
  | _ => none

/-- Model of `Value::as_bool`. -/
def Json.as_bool : Json → Option Bool
  | .bool b => some b
  | _ => none

/-- Model of `Value::is_string`. -/
def Json.is_string : Json → Bool
  | .str _ => true
  | _ => false

/-- Model of `Value::is_object`. -/
def Json.is_object : Json → Bool
  | .obj _ => true
  | _ => false

/-- Model of `tokenizers::AddedToken` (the fields the source sets; field order:
content, special, single_word, lstrip, rstrip, normalized). -/
structure AddedToken : Type where
  content : String
  special : Bool
  single_word : Bool
  lstrip : Bool
  rstrip : Bool
  normalized : Bool
deriving DecidableEq, Repr

/-- Padding configuration the source installs: strategy is always
`PaddingStrategy::BatchLongest` (pad to the longest sequence of each
batch), with the resolved pad token string and id. -/
structure PaddingParams : Type where
  pad_token : String
  pad_id : Nat
deriving DecidableEq, Repr

/-- Truncation configuration the source installs (only `max_length` is
set; the other fields keep their library defaults). -/
structure TruncationParams : Type where
  max_length : Nat
deriving DecidableEq, Repr

/-- The base tokenizer produced by the opaque
`tokenizers::Tokenizer::from_bytes` parser.  Its linguistic content is
out of scope; the one observable the source depends on is whether
`with_truncation` accepts the truncation parameters (it returns a
`Result`, propagated with `?`). -/
structure BaseTok : Type where
  with_truncation_ok : Bool
deriving DecidableEq, Repr

/-- The configured tokenizer `load_tokenizer` returns: the base
tokenizer with padding and truncation installed and the registered
special tokens (in registration order). -/
structure Tokenizer : Type where
  base : BaseTok
  padding : PaddingParams
  truncation : TruncationParams
  special_tokens : List AddedToken
deriving DecidableEq, Repr

/-- Error values `load_tokenizer` can return (spec: DataFormatError for
a buffer that does not parse; the `with_truncation` error is forwarded
with `map_err(anyhow::Error::msg)`). -/
inductive TokError : Type where
  | dataFormat : String → TokError
  | truncationConfig : TokError
deriving DecidableEq, Repr

/-- Model of `tokenizer.add_special_tokens(&[token])`: registers one more
special token. -/
def Tokenizer.add_special (t : Tokenizer) (a : AddedToken) : Tokenizer :=
  { t with special_tokens := t.special_tokens ++ [a] }

/-- The `for (_, value) in root_object.iter()` loop of lib.rs lines
349-366.  A plain string registers a token with the library-default
attributes (single_word/lstrip/rstrip false, normalized true) and
`special: true`; an object registers a token whose `content`,
`single_word`, `lstrip`, `rstrip`, `normalized` are each read with
`.unwrap()`, so a missing or non-boolean attribute panics; any other
JSON shape is skipped silently. -/
def addLoop : List (String × Json) → Tokenizer → Outcome TokError Tokenizer
  | [], tok => .ok tok
  | (_, v) :: rest, tok =>
    if v.is_string then
      match v.as_str with
      | some s => addLoop rest (tok.add_special ⟨s, true, false, false, false, true⟩)
      | none => .panic
    else if v.is_object then
      match (v.index "content").as_str with
      | none => .panic
      | some c =>
        match (v.index "single_word").as_bool with
        | none => .panic
        | some sw =>
          match (v.index "lstrip").as_bool with
          | none => .panic
          | some ls =>
            match (v.index "rstrip").as_bool with
            | none => .panic
            | some rs =>
              match (v.index "normalized").as_bool with
              | none => .panic
              | some nm => addLoop rest (tok.add_special ⟨c, true, sw, ls, rs, nm⟩)
    else
      addLoop rest tok

/-- The `if let serde_json::Value::Object(root_object) =
special_tokens_map` wrapper (lib.rs line 348): a non-object document
registers nothing. -/
def add_special_tokens_from_map (stm : Json) (tok : Tokenizer) : Outcome TokError Tokenizer :=
  match stm with
  | .obj fields => addLoop fields tok
  | _ => .ok tok

/-- Value of `usize::MAX` on the 64-bit targets the crate ships for. -/
def usizeMax : Nat := 2 ^ 64 - 1

/-- The `model_max_length as f32 ... as usize` cast chain of lib.rs
lines 326-327: Rust float-to-integer `as` truncates toward zero and
saturates at the integer type's bounds (negative values clamp to 0,
which `Int.toNat` provides).  The intermediate `f64`-to-`f32` rounding
is the identity on the magnitudes exercised here (both casts compose to
a truncation for every value whose `f32` rounding does not cross an
integer boundary). -/
def f32_as_usize (q : ℚ) : Nat := min (⌊q⌋.toNat) usizeMax

/-- Model of `TokenizerFiles` (lib.rs lines 158-163) after the four byte buffers
have been run through their opaque parsers: `serde_json::from_slice`
for the three configs and `tokenizers::Tokenizer::from_bytes` for the
definition file; `none` models a buffer the parser rejects. -/
structure TokenizerFiles : Type where
  tokenizer_file : Option BaseTok
  config_file : Option Json
  special_tokens_map_file : Option Json
  tokenizer_config_file : Option Json

/-- Model of `TextEmbedding::load_tokenizer` (lib.rs lines 288-369).
Parse failures of the four buffers return `DataFormatError`-style error
values (`map_err` + `?` in the source, in source order: config.json,
special_tokens_map.json, tokenizer_config.json, tokenizer.json);
a missing/non-numeric `model_max_length` and a missing/non-string
`pad_token` panic (`.expect(..)` in the source); `pad_token_id` falls
back to 0 (`unwrap_or(0)`, then `as u32`); the effective truncation
length is `max_length.min(model_max_length as f32 as usize)`. -/
def load_tokenizer (tokenizer_files : TokenizerFiles) (max_length : Nat) :
    Outcome TokError Tokenizer :=
  match tokenizer_files.config_file with
  | none => .err (.dataFormat "config.json")
  | some config =>
  match tokenizer_files.special_tokens_map_file with
  | none => .err (.dataFormat "special_tokens_map.json")
  | some special_tokens_map =>
  match tokenizer_files.tokenizer_config_file with
  | none => .err (.dataFormat "tokenizer_config.json")
  | some tokenizer_config =>
  match tokenizer_files.tokenizer_file with
  | none => .err (.dataFormat "tokenizer.json")
  | some base =>
  match (tokenizer_config.index "model_max_length").as_f64 with
  | none => .panic
  | some model_max_length =>
  let effective_max_length := min max_length (f32_as_usize model_max_length)
  let pad_id := (((config.index "pad_token_id").as_u64).getD 0) % 2 ^ 32
  match (tokenizer_config.index "pad_token").as_str with
  | none => .panic
  | some pad_token =>
  if base.with_truncation_ok then
    add_special_tokens_from_map special_tokens_map
      ⟨base, ⟨pad_token, pad_id⟩, ⟨effective_max_length⟩, []⟩
  else
    .err .truncationConfig

/-- One `tokenizers::Encoding`: the three parallel per-token integer
arrays the pipeline consumes (`get_ids`, `get_attention_mask`,
`get_type_ids`; the raw values are `u32`). -/
structure Encoding : Type where
  ids : List Nat
  attention_mask : List Nat
  type_ids : List Nat
deriving DecidableEq, Repr

/-- Model of `Encoding::len()`: the (padded) number of tokens. -/
def Encoding.len (e : Encoding) : Nat := e.ids.length

/-- A 2-D `i64` tensor (`ndarray::Array2<i64>`), row-major. -/
abbrev Matrix : Type := List (List Int)

/-- A 3-D `f32` tensor (`last_hidden_state`), rows indexed
(sequence, position, hidden-dim). -/
abbrev Tensor3 : Type := List (List (List ℚ))

/-- Model of `type Embedding = Vec<f32>` (lib.rs line 83). -/
abbrev Embedding : Type := List ℚ

/-- The onnxruntime `Session` as the source consumes it: the declared
input names (`session.inputs[..].name`) and the opaque synchronous
`run(named tensors) -> named tensors` call, which may fail with an
engine error.  The session is immutable after construction; `run` is a
pure function of its inputs here, reflecting the read-only sharing the
source relies on. -/
structure Session : Type where
  inputs : List String
  run : List (String × Matrix) → Except Unit (List (String × Tensor3))

/-- The `f32` intrinsics `normalize` needs (just `sqrt`), passed
explicitly since floats are modelled as rationals. -/
structure FloatOps : Type where
  sqrt : ℚ → ℚ

/-- Model of `pub struct TextEmbedding` (lib.rs lines 166-170): the configured
tokenizer is consumed only through its `encode_batch` contract, so it
is carried as that function. -/
structure TextEmbedding : Type where
  tokenizer : List String → Bool → Except Unit (List Encoding)
  session : Session
  need_token_type_ids : Bool

/-- Model of `TextEmbedding::new` (lib.rs lines 242-252): computes
`need_token_type_ids` once, as whether any declared session input is
named "token_type_ids".  Nothing ever writes the field afterwards. -/
def TextEmbedding.new (tokenizer : List String → Bool → Except Unit (List Encoding))
    (session : Session) : TextEmbedding :=
  ⟨tokenizer, session, session.inputs.any (fun name => name == "token_type_ids")⟩

/-- Error values the per-batch closure can produce via `?`:
`shape` for `Array::from_shape_vec` failures, `inference` for
`session.run` failures. -/
inductive EmbedError : Type where
  | shape : EmbedError
  | inference : EmbedError
deriving DecidableEq, Repr

/-- Model of `ndarray::Array::from_shape_vec((rows, cols), v)`: succeeds exactly
when the flattened length matches `rows * cols`, yielding the row-major
matrix. -/
def from_shape_vec (rows cols : Nat) (v : List Int) : Except Unit Matrix :=
  if v.length = rows * cols then
    .ok ((List.range rows).map (fun i => (v.drop (i * cols)).take cols))
  else
    .error ()

/-- The flattening loop of lib.rs lines 413-423: concatenates one of
the three per-encoding arrays across all encodings of the batch in
row-major (sequence, position) order, widening each `u32` element to
`i64` (`*x as i64`, exact since `u32` embeds in `i64`). -/
def flattenI64 (f : Encoding → List Nat) (encodings : List Encoding) : List Int :=
  encodings.flatMap (fun e => (f e).map Int.ofNat)

/-- The named-input set handed to `session.run` (lib.rs lines 435-442):
always "input_ids" and "attention_mask", plus "token_type_ids" exactly
when the cached flag is set. -/
def sessionInputs (need_token_type_ids : Bool) (ids mask type_ids : Matrix) :
    List (String × Matrix) :=
  [("input_ids", ids), ("attention_mask", mask)] ++
    (if need_token_type_ids then [("token_type_ids", type_ids)] else [])

/-- Constant `DEFAULT_BATCH_SIZE` (`const DEFAULT_BATCH_SIZE: usize = 256`, lib.rs line 77). -/
def DEFAULT_BATCH_SIZE : Nat := 256

/-- The per-batch closure of `TextEmbedding::embed` (lib.rs lines
396-457).  Panics (`.panic`): `encode_batch(..).unwrap()` on a
tokenizer failure, `encodings[0]` on an empty batch encoding list,
`outputs["last_hidden_state"]` when the engine returned no tensor of
that name, and the `s![.., 0, ..]` slice when the token axis is empty.
Error values (`.err`, from `?`): the three `from_shape_vec` reshapes
(all three are built before the `need_token_type_ids` branch, matching
the source) and the engine `run` call.  `Value::from_array` and the
`f32` extraction are modelled as infallible: the tensors here are
well-typed by construction. -/
def embedBatch (fo : FloatOps) (self : TextEmbedding) (batch : List String) :
    Outcome EmbedError (List Embedding) :=
  match self.tokenizer batch true with
  | .error _ => .panic
  | .ok encodings =>
  match encodings with
  | [] => .panic
  | e0 :: _ =>
  let encoding_length := e0.len
  let batch_size := batch.length
  let ids_array := flattenI64 Encoding.ids encodings
  let mask_array := flattenI64 Encoding.attention_mask encodings
  let typeids_array := flattenI64 Encoding.type_ids encodings
  match from_shape_vec batch_size encoding_length ids_array with
  | .error _ => .err .shape
  | .ok inputs_ids_array =>
  match from_shape_vec batch_size encoding_length mask_array with
  | .error _ => .err .shape
  | .ok attention_mask_array =>
  match from_shape_vec batch_size encoding_length typeids_array with
  | .error _ => .err .shape
  | .ok token_type_ids_array =>
  match self.session.run (sessionInputs self.need_token_type_ids inputs_ids_array
      attention_mask_array token_type_ids_array) with
  | .error _ => .err .inference
  | .ok outputs =>
  match List.lookup "last_hidden_state" outputs with
  | none => .panic
  | some output_data =>
  if output_data.all (fun seq => !seq.isEmpty) then
    .ok (output_data.map (fun seq => normalize fo.sqrt (seq.headD [])))
  else
    .panic

/-- Model of `TextEmbedding::embed` (lib.rs lines 386-463): resolve the batch
size (default 256), split the texts into contiguous chunks, run the
per-batch closure over every chunk, and collect the per-batch vectors
in chunk order, unwrapping each per-batch `Result` (so any failed batch
panics the whole call).  A zero batch size panics inside rayon's
`par_chunks` ("chunk size must not be zero") before any batch runs. -/
def TextEmbedding.embed (fo : FloatOps) (self : TextEmbedding) (texts : List String)
    (batch_size : Option Nat) : Outcome EmbedError (List Embedding) :=
  let bs := batch_size.getD DEFAULT_BATCH_SIZE
  if bs = 0 then
    .panic
  else
    collectUnwrap ((chunksList bs texts).map (embedBatch fo self))

theorem normalize_getElem? (sqrt : ℚ → ℚ) (v : List ℚ) (k : Nat) :
    (normalize sqrt v)[k]? =
      (v[k]?).map (fun x => x / (sqrt ((v.map (fun val => val * val)).sum) + epsilon)) := by
  simp [normalize, List.getElem?_map]

/-- Claim C3: `normalize(v)` keeps the length of `v`, its k-th element
is `v[k] / (L2-norm of v + epsilon)` with `epsilon = 1e-12`, it is a
pure deterministic function (it is a Lean function of its arguments by
construction), and its divisor is never zero — for any square-root
collaborator that is nonnegative on nonnegative inputs (`f32::sqrt`
is), even on the all-zero vector. -/
theorem claim_C3_normalize (sqrt : ℚ → ℚ) (hs : ∀ x : ℚ, 0 ≤ x → 0 ≤ sqrt x) (v : List ℚ) :
    (normalize sqrt v).length = v.length ∧
    (∀ k : Nat, (normalize sqrt v)[k]? =
      (v[k]?).map (fun x => x / (sqrt ((v.map (fun val => val * val)).sum) + epsilon))) ∧
    sqrt ((v.map (fun val => val * val)).sum) + epsilon ≠ 0 := by
  refine ⟨by simp [normalize], fun k => normalize_getElem? sqrt v k, ?_⟩
  have hsum : 0 ≤ (v.map (fun val => val * val)).sum := by
    apply List.sum_nonneg
    intro x hx
    rcases List.mem_map.mp hx with ⟨y, _, rfl⟩
    exact mul_self_nonneg y
  have heps : 0 < epsilon := by norm_num [epsilon]
  have : 0 < sqrt ((v.map (fun val => val * val)).sum) + epsilon :=
    add_pos_of_nonneg_of_pos (hs _ hsum) heps
  exact ne_of_gt this

theorem claim_C3_normalize_witness :
    (normalize (fun _ => 0) [0, 0]).length = ([0, 0] : List ℚ).length :=
  (claim_C3_normalize (fun _ => 0) (fun _ _ => le_refl 0) [0, 0]).1

/-- Claim C10: calling `embed` with `batch_size = Some(0)` panics for
every input (rayon's `par_chunks` asserts a non-zero chunk size), so
the call returns neither `Ok` nor `Err`. -/
theorem claim_C10_zero_batch_size_panics (fo : FloatOps) (self : TextEmbedding)
    (texts : List String) :
    TextEmbedding.embed fo self texts (some 0) = .panic := rfl

/-- Claim C9: `embed` with no batch size behaves as batch size 256
(`DEFAULT_BATCH_SIZE`), and for every positive batch size `B` the input
partition has exactly `⌈N/B⌉` contiguous batches whose concatenation is
the input itself (each text in exactly one batch, original order), each
batch of size at most `B`, and every batch except possibly the last of
size exactly `B`. -/
theorem claim_C9_batch_partition :
    (∀ (fo : FloatOps) (self : TextEmbedding) (texts : List String),
      TextEmbedding.embed fo self texts none =
        TextEmbedding.embed fo self texts (some DEFAULT_BATCH_SIZE)) ∧
    (∀ B : Nat, 0 < B → ∀ texts : List String,
      (chunksList B texts).length = (texts.length + B - 1) / B ∧
      (chunksList B texts).flatten = texts ∧
      (∀ b ∈ chunksList B texts, b.length ≤ B) ∧
      (∀ i : Nat, i + 1 < (chunksList B texts).length →
        ((chunksList B texts)[i]?).map List.length = some B)) := by
  constructor
  · intro fo self texts
    rfl
  · intro B hB texts
    refine ⟨chunksFuel_length B hB texts.length texts (le_refl _),
      chunksList_flatten B texts, ?_, ?_⟩
    · intro b hb
      exact (chunksFuel_mem_bound B hB texts.length texts (le_refl _) b hb).1
    · intro i hi
      exact chunksFuel_take_len B hB texts.length texts i (le_refl _) hi

theorem claim_C9_batch_partition_witness :
    (chunksList 2 ["a", "b", "c"]).length = ((["a", "b", "c"] : List String).length + 2 - 1) / 2 :=
  (claim_C9_batch_partition.2 2 (by norm_num) ["a", "b", "c"]).1

/-- Claim C5: the named-input set of every engine `run` call has
exactly the names "input_ids" and "attention_mask" when the cached
`need_token_type_ids` flag is false and exactly those plus
"token_type_ids" when it is true; the flag itself is computed by the
constructor as whether "token_type_ids" occurs among the session's
declared input names (and, the `TextEmbedding` being immutable, nothing
changes it afterwards).  The third conjunct shows `embedBatch` consults
the engine only on name-conforming input sets: its result cannot depend
on what `run` would do on any other input list. -/
theorem claim_C5_token_type_conditional :
    (∀ (need : Bool) (ids mask type_ids : Matrix),
      (sessionInputs need ids mask type_ids).map Prod.fst =
        if need then ["input_ids", "attention_mask", "token_type_ids"]
        else ["input_ids", "attention_mask"]) ∧
    (∀ (tokenizer : List String → Bool → Except Unit (List Encoding)) (session : Session),
      (TextEmbedding.new tokenizer session).need_token_type_ids =
        session.inputs.any (fun name => name == "token_type_ids")) ∧
    (∀ (fo : FloatOps) (tokenizer : List String → Bool → Except Unit (List Encoding))
        (s1 s2 : Session) (need : Bool) (batch : List String),
      (∀ inp : List (String × Matrix),
        inp.map Prod.fst =
          (if need then ["input_ids", "attention_mask", "token_type_ids"]
           else ["input_ids", "attention_mask"]) →
        s1.run inp = s2.run inp) →
      embedBatch fo ⟨tokenizer, s1, need⟩ batch = embedBatch fo ⟨tokenizer, s2, need⟩ batch) := by
  refine ⟨?_, ?_, ?_⟩
  · intro need ids mask type_ids
    cases need <;> simp [sessionInputs]
  · intro tokenizer session
    rfl
  · intro fo tokenizer s1 s2 need batch hagree
    simp only [embedBatch]
    cases htok : tokenizer batch true with
    | error e => rfl
    | ok encodings =>
      cases encodings with
      | nil => rfl
      | cons e0 rest =>
        simp only
        cases h1 : from_shape_vec batch.length e0.len (flattenI64 Encoding.ids (e0 :: rest)) with
        | error e => rfl
        | ok ids_m =>
          cases h2 : from_shape_vec batch.length e0.len
              (flattenI64 Encoding.attention_mask (e0 :: rest)) with
          | error e => rfl
          | ok mask_m =>
            cases h3 : from_shape_vec batch.length e0.len
                (flattenI64 Encoding.type_ids (e0 :: rest)) with
            | error e => rfl
            | ok type_m =>
              simp only
              rw [hagree (sessionInputs need ids_m mask_m type_m)
                (by cases need <;> simp [sessionInputs])]

/-- Fixture engine answering every run with no named outputs (never
reached by the witnesses that use it). -/
def plainSession : Session := ⟨["input_ids", "attention_mask"], fun _ => .ok []⟩

/-- Fixture `sqrt` collaborator. -/
def sqrtZero : FloatOps := ⟨fun _ => 0⟩

/-- Fixture session that behaves like `plainSession` on every input
list whose names are exactly "input_ids", "attention_mask" and errors
on anything else; `embedBatch` cannot tell them apart. -/
def offContractSession : Session :=
  ⟨["input_ids", "attention_mask"],
   fun inp => if inp.map Prod.fst = ["input_ids", "attention_mask"] then
       Session.run plainSession inp
     else
       .error ()⟩

theorem claim_C5_token_type_conditional_witness :
    embedBatch sqrtZero ⟨fun _ _ => Except.error (), plainSession, false⟩ ["a"] =
      embedBatch sqrtZero ⟨fun _ _ => Except.error (), offContractSession, false⟩ ["a"] :=
  claim_C5_token_type_conditional.2.2 sqrtZero (fun _ _ => Except.error ())
    plainSession offContractSession false ["a"]
    (fun inp hnames => by
      simp only [Bool.false_eq_true, if_false] at hnames
      simp [offContractSession, hnames])

theorem addLoop_preserves :
    ∀ (fields : List (String × Json)) (tok t : Tokenizer), addLoop fields tok = .ok t →
      t.padding = tok.padding ∧ t.truncation = tok.truncation ∧ t.base = tok.base := by
  intro fields
  induction fields with
  | nil =>
    intro tok t h
    simp only [addLoop] at h
    cases h
    exact ⟨rfl, rfl, rfl⟩
  | cons kv rest ih =>
    intro tok t h
    obtain ⟨k, v⟩ := kv
    cases v with
    | str s =>
      simp only [addLoop, Json.is_string, Json.as_str, if_true] at h
      exact ih (tok.add_special ⟨s, true, false, false, false, true⟩) t h
    | obj fields' =>
      simp only [addLoop, Json.is_string, Json.is_object, Bool.false_eq_true, if_false,
        if_true] at h
      cases hc : (Json.obj fields').index "content" |>.as_str with
      | none => rw [hc] at h; cases h
      | some c =>
        rw [hc] at h
        cases hsw : (Json.obj fields').index "single_word" |>.as_bool with
        | none => rw [hsw] at h; cases h
        | some sw =>
          rw [hsw] at h
          cases hls : (Json.obj fields').index "lstrip" |>.as_bool with
          | none => rw [hls] at h; cases h
          | some ls =>
            rw [hls] at h
            cases hrs : (Json.obj fields').index "rstrip" |>.as_bool with
            | none => rw [hrs] at h; cases h
            | some rs =>
              rw [hrs] at h
              cases hnm : (Json.obj fields').index "normalized" |>.as_bool with
              | none => rw [hnm] at h; cases h
              | some nm =>
                rw [hnm] at h
                exact ih (tok.add_special ⟨c, true, sw, ls, rs, nm⟩) t h
    | null =>
      simp only [addLoop, Json.is_string, Json.is_object, Bool.false_eq_true, if_false] at h
      exact ih _ t h
    | bool b =>
      simp only [addLoop, Json.is_string, Json.is_object, Bool.false_eq_true, if_false] at h
      exact ih _ t h
    | num q =>
      simp only [addLoop, Json.is_string, Json.is_object, Bool.false_eq_true, if_false] at h
      exact ih _ t h
    | arr elems =>
      simp only [addLoop, Json.is_string, Json.is_object, Bool.false_eq_true, if_false] at h
      exact ih _ t h

theorem add_special_tokens_from_map_preserves (stm : Json) (tok t : Tokenizer)
    (h : add_special_tokens_from_map stm tok = .ok t) :
    t.padding = tok.padding ∧ t.truncation = tok.truncation ∧ t.base = tok.base := by
  cases stm with
  | obj fields => exact addLoop_preserves fields tok t h
  | null => cases h; exact ⟨rfl, rfl, rfl⟩
  | bool b => cases h; exact ⟨rfl, rfl, rfl⟩
  | num q => cases h; exact ⟨rfl, rfl, rfl⟩
  | str s => cases h; exact ⟨rfl, rfl, rfl⟩
  | arr elems => cases h; exact ⟨rfl, rfl, rfl⟩

/-- Concrete well-formed fixture: a tokenizer config declaring
`model_max_length = 20` and `pad_token = "[PAD]"`. -/
def sampleTokenizerConfig : Json :=
  .obj [("model_max_length", .num 20), ("pad_token", .str "[PAD]")]

/-- Concrete well-formed artifact set (no `pad_token_id` in the general
config, empty special-tokens map). -/
def sampleFiles : TokenizerFiles :=
  ⟨some ⟨true⟩, some (.obj []), some (.obj []), some sampleTokenizerConfig⟩

/-- The tokenizer `load_tokenizer sampleFiles 50` produces. -/
def sampleTokenizer : Tokenizer := ⟨⟨true⟩, ⟨"[PAD]", 0⟩, ⟨20⟩, []⟩

/-- Claim C4: the effective truncation length is
`min(requested, model_max_length as f32 as usize)` (first conjunct, on
`load_tokenizer` runs that succeed); for any in-range request and
nonnegative declared value the saturating cast makes this equal to
`min(requested, model_max_length truncated to an integer)` (second
conjunct); in particular requested 50 with declared 20 gives 20, and
requested 10 with declared 1e30 gives 10 (the huge sentinel saturates
at `usize::MAX` and the caller's request wins). -/
theorem claim_C4_effective_max_length :
    (∀ (files : TokenizerFiles) (max_length : Nat) (tc : Json) (q : ℚ) (t : Tokenizer),
      files.tokenizer_config_file = some tc →
      (tc.index "model_max_length").as_f64 = some q →
      load_tokenizer files max_length = .ok t →
      t.truncation.max_length = min max_length (f32_as_usize q)) ∧
    (∀ (r : Nat) (q : ℚ), r < 2 ^ 64 → 0 ≤ q →
      min r (f32_as_usize q) = min r (⌊q⌋.toNat)) ∧
    min 50 (f32_as_usize 20) = 20 ∧
    min 10 (f32_as_usize ((10 : ℚ) ^ 30)) = 10 := by
  refine ⟨?_, ?_, by decide, by decide⟩
  · intro files max_length tc q t htc hq hok
    obtain ⟨tf, cf, stf, tcf⟩ := files
    simp only at htc
    subst htc
    cases cf with
    | none => simp [load_tokenizer] at hok
    | some config =>
    cases stf with
    | none => simp [load_tokenizer] at hok
    | some stm =>
    cases tf with
    | none => simp [load_tokenizer] at hok
    | some base =>
    simp only [load_tokenizer, hq] at hok
    cases hpt : (tc.index "pad_token").as_str with
    | none =>
      rw [hpt] at hok
      simp at hok
    | some pad_token =>
      rw [hpt] at hok
      cases hbt : base.with_truncation_ok with
      | false =>
        rw [hbt] at hok
        simp at hok
      | true =>
        rw [hbt] at hok
        simp only [if_true] at hok
        have := (add_special_tokens_from_map_preserves _ _ _ hok).2.1
        rw [this]
  · intro r q hr hq
    rcases le_or_lt (⌊q⌋.toNat) usizeMax with h | h
    · rw [f32_as_usize, min_eq_left h]
    · rw [f32_as_usize, min_eq_right h.le]
      simp only [usizeMax] at h ⊢
      omega

theorem claim_C4_effective_max_length_witness :
    sampleTokenizer.truncation.max_length = min 50 (f32_as_usize 20) :=
  claim_C4_effective_max_length.1 sampleFiles 50 sampleTokenizerConfig 20 sampleTokenizer
    rfl (by decide) (by decide)

/-- Claim C7: `pad_token_id` is lenient — when it is absent from the
general config (serde's index yields `Null`), construction proceeds
with pad id 0; `pad_token` is strict — when the tokenizer config has no
string `pad_token`, construction never returns a tokenizer (the source
panics in `.expect(..)` there).  The asymmetry holds for every input
configuration. -/
theorem claim_C7_pad_token_asymmetry :
    (∀ (files : TokenizerFiles) (max_length : Nat) (config : Json) (t : Tokenizer),
      files.config_file = some config →
      config.index "pad_token_id" = Json.null →
      load_tokenizer files max_length = .ok t →
      t.padding.pad_id = 0) ∧
    (∀ (files : TokenizerFiles) (max_length : Nat) (tc : Json),
      files.tokenizer_config_file = some tc →
      (tc.index "pad_token").as_str = none →
      ∀ t : Tokenizer, load_tokenizer files max_length ≠ .ok t) := by
  constructor
  · intro files max_length config t hcf hnull hok
    obtain ⟨tf, cf, stf, tcf⟩ := files
    simp only at hcf
    subst hcf
    cases stf with
    | none => simp [load_tokenizer] at hok
    | some stm =>
    cases tcf with
    | none => simp [load_tokenizer] at hok
    | some tc =>
    cases tf with
    | none => simp [load_tokenizer] at hok
    | some base =>
    simp only [load_tokenizer] at hok
    cases hmml : (tc.index "model_max_length").as_f64 with
    | none =>
      rw [hmml] at hok
      simp at hok
    | some q =>
      rw [hmml] at hok
      cases hpt : (tc.index "pad_token").as_str with
      | none =>
        rw [hpt] at hok
        simp at hok
      | some pad_token =>
        rw [hpt] at hok
        cases hbt : base.with_truncation_ok with
        | false =>
          rw [hbt] at hok
          simp at hok
        | true =>
          rw [hbt] at hok
          simp only [if_true] at hok
          have := (add_special_tokens_from_map_preserves _ _ _ hok).1
          rw [this]
          simp [hnull, Json.as_u64]
  · intro files max_length tc htcf hpt t hok
    obtain ⟨tf, cf, stf, tcf⟩ := files
    simp only at htcf
    subst htcf
    cases cf with
    | none => simp [load_tokenizer] at hok
    | some config =>
    cases stf with
    | none => simp [load_tokenizer] at hok
    | some stm =>
    cases tf with
    | none => simp [load_tokenizer] at hok
    | some base =>
    simp only [load_tokenizer] at hok
    cases hmml : (tc.index "model_max_length").as_f64 with
    | none =>
      rw [hmml] at hok
      simp at hok
    | some q =>
      rw [hmml] at hok
      rw [hpt] at hok
      simp at hok

theorem claim_C7_pad_token_asymmetry_witness : sampleTokenizer.padding.pad_id = 0 :=
  claim_C7_pad_token_asymmetry.1 sampleFiles 50 (.obj []) sampleTokenizer rfl rfl (by decide)

theorem addLoop_ok_object_attrs :
    ∀ (fields : List (String × Json)) (tok t : Tokenizer), addLoop fields tok = .ok t →
      ∀ (k : String) (v : Json), (k, v) ∈ fields → v.is_object = true →
        (∃ b, (v.index "single_word").as_bool = some b) ∧
        (∃ b, (v.index "lstrip").as_bool = some b) ∧
        (∃ b, (v.index "rstrip").as_bool = some b) ∧
        (∃ b, (v.index "normalized").as_bool = some b) := by
  intro fields
  induction fields with
  | nil =>
    intro tok t _ k v hmem
    simp at hmem
  | cons kv rest ih =>
    intro tok t h k v hmem hobj
    obtain ⟨k', v'⟩ := kv
    rcases List.mem_cons.mp hmem with hhead | htail
    · obtain ⟨hk, hv⟩ := Prod.mk.injEq .. ▸ hhead
      subst hk
      subst hv
      cases v with
      | obj fields' =>
        simp only [addLoop, Json.is_string, Json.is_object, Bool.false_eq_true, if_false,
          if_true] at h
        cases hc : (Json.obj fields').index "content" |>.as_str with
        | none => rw [hc] at h; cases h
        | some c =>
          rw [hc] at h
          cases hsw : (Json.obj fields').index "single_word" |>.as_bool with
          | none => rw [hsw] at h; cases h
          | some sw =>
            rw [hsw] at h
            cases hls : (Json.obj fields').index "lstrip" |>.as_bool with
            | none => rw [hls] at h; cases h
            | some ls =>
              rw [hls] at h
              cases hrs : (Json.obj fields').index "rstrip" |>.as_bool with
              | none => rw [hrs] at h; cases h
              | some rs =>
                rw [hrs] at h
                cases hnm : (Json.obj fields').index "normalized" |>.as_bool with
                | none => rw [hnm] at h; cases h
                | some nm =>
                  exact ⟨⟨sw, rfl⟩, ⟨ls, rfl⟩, ⟨rs, rfl⟩, ⟨nm, rfl⟩⟩
      | null => simp [Json.is_object] at hobj
      | bool b => simp [Json.is_object] at hobj
      | num q => simp [Json.is_object] at hobj
      | str s => simp [Json.is_object] at hobj
      | arr elems => simp [Json.is_object] at hobj
    · cases v' with
      | str s =>
        simp only [addLoop, Json.is_string, Json.as_str, if_true] at h
        exact ih _ t h k v htail hobj
      | obj fields' =>
        simp only [addLoop, Json.is_string, Json.is_object, Bool.false_eq_true, if_false,
          if_true] at h
        cases hc : (Json.obj fields').index "content" |>.as_str with
        | none => rw [hc] at h; cases h
        | some c =>
          rw [hc] at h
          cases hsw : (Json.obj fields').index "single_word" |>.as_bool with
          | none => rw [hsw] at h; cases h
          | some sw =>
            rw [hsw] at h
            cases hls : (Json.obj fields').index "lstrip" |>.as_bool with
            | none => rw [hls] at h; cases h
            | some ls =>
              rw [hls] at h
              cases hrs : (Json.obj fields').index "rstrip" |>.as_bool with
              | none => rw [hrs] at h; cases h
              | some rs =>
                rw [hrs] at h
                cases hnm : (Json.obj fields').index "normalized" |>.as_bool with
                | none => rw [hnm] at h; cases h
                | some nm =>
                  rw [hnm] at h
                  exact ih _ t h k v htail hobj
      | null =>
        simp only [addLoop, Json.is_string, Json.is_object, Bool.false_eq_true, if_false] at h
        exact ih _ t h k v htail hobj
      | bool b =>
        simp only [addLoop, Json.is_string, Json.is_object, Bool.false_eq_true, if_false] at h
        exact ih _ t h k v htail hobj
      | num q =>
        simp only [addLoop, Json.is_string, Json.is_object, Bool.false_eq_true, if_false] at h
        exact ih _ t h k v htail hobj
      | arr elems =>
        simp only [addLoop, Json.is_string, Json.is_object, Bool.false_eq_true, if_false] at h
        exact ih _ t h k v htail hobj

/-- Claim C6: when the parsed special-tokens map is an object
containing an entry whose value is itself an object for which any of
the `single_word` / `lstrip` / `rstrip` / `normalized` attributes is
missing or not a boolean (`as_bool` yields nothing), tokenizer
construction fails: `load_tokenizer` never returns a tokenizer, and in
particular no default is substituted for the attribute.  In the source
the failure is the strict `.unwrap()` read of the attribute (a loud
abort), which the spec's error taxonomy classes as the DataFormatError
family for malformed configuration data. -/
theorem claim_C6_malformed_special_token (files : TokenizerFiles) (max_length : Nat)
    (fields : List (String × Json)) (k : String) (v : Json)
    (hstm : files.special_tokens_map_file = some (.obj fields))
    (hmem : (k, v) ∈ fields) (hobj : v.is_object = true)
    (hmal : (v.index "single_word").as_bool = none ∨ (v.index "lstrip").as_bool = none ∨
            (v.index "rstrip").as_bool = none ∨ (v.index "normalized").as_bool = none) :
    ∀ t : Tokenizer, load_tokenizer files max_length ≠ .ok t := by
  intro t hok
  obtain ⟨tf, cf, stf, tcf⟩ := files
  simp only at hstm
  subst hstm
  cases cf with
  | none => simp [load_tokenizer] at hok
  | some config =>
  cases tcf with
  | none => simp [load_tokenizer] at hok
  | some tc =>
  cases tf with
  | none => simp [load_tokenizer] at hok
  | some base =>
  simp only [load_tokenizer] at hok
  cases hmml : (tc.index "model_max_length").as_f64 with
  | none =>
    rw [hmml] at hok
    simp at hok
  | some q =>
    rw [hmml] at hok
    cases hpt : (tc.index "pad_token").as_str with
    | none =>
      rw [hpt] at hok
      simp at hok
    | some pad_token =>
      rw [hpt] at hok
      cases hbt : base.with_truncation_ok with
      | false =>
        rw [hbt] at hok
        simp at hok
      | true =>
        rw [hbt] at hok
        simp only [if_true, add_special_tokens_from_map] at hok
        have hattrs := addLoop_ok_object_attrs fields _ t hok k v hmem hobj
        rcases hmal with h | h | h | h
        · obtain ⟨b, hb⟩ := hattrs.1
          rw [h] at hb
          cases hb
        · obtain ⟨b, hb⟩ := hattrs.2.1
          rw [h] at hb
          cases hb
        · obtain ⟨b, hb⟩ := hattrs.2.2.1
          rw [h] at hb
          cases hb
        · obtain ⟨b, hb⟩ := hattrs.2.2.2
          rw [h] at hb
          cases hb

/-- A special-tokens map whose single entry is an object having only a
`content` field: all four boolean attributes are missing. -/
def malformedSpecialTokensFiles : TokenizerFiles :=
  ⟨some ⟨true⟩, some (.obj []), some (.obj [("cls_token", .obj [("content", .str "[CLS]")])]),
   some sampleTokenizerConfig⟩

theorem claim_C6_malformed_special_token_witness :
    load_tokenizer malformedSpecialTokensFiles 512 ≠ .ok sampleTokenizer :=
  claim_C6_malformed_special_token malformedSpecialTokensFiles 512
    [("cls_token", .obj [("content", .str "[CLS]")])] "cls_token"
    (.obj [("content", .str "[CLS]")]) rfl (List.Mem.head _) rfl (Or.inl rfl) sampleTokenizer

theorem flattenI64_getElem? (f : Encoding → List Nat) :
    ∀ (es : List Encoding) (L : Nat), (∀ e ∈ es, (f e).length = L) →
      ∀ (s : Nat) (e : Encoding) (p : Nat), es[s]? = some e → p < L →
        (flattenI64 f es)[s * L + p]? = ((f e)[p]?).map Int.ofNat := by
  intro es
  induction es with
  | nil =>
    intro L _ s e p hs _
    simp at hs
  | cons e0 rest ih =>
    intro L hL s e p hs hp
    cases s with
    | zero =>
      simp only [List.getElem?_cons_zero, Option.some_inj] at hs
      subst hs
      have hlen : p < ((f e0).map Int.ofNat).length := by
        rw [List.length_map, hL e0 (List.Mem.head _)]
        exact hp
      simp only [Nat.zero_mul, Nat.zero_add, flattenI64, List.flatMap_cons]
      rw [List.getElem?_append_left hlen, List.getElem?_map]
    | succ s' =>
      simp only [List.getElem?_cons_succ] at hs
      have harith : (s' + 1) * L + p = ((f e0).map Int.ofNat).length + (s' * L + p) := by
        rw [List.length_map, hL e0 (List.Mem.head _)]
        ring
      simp only [flattenI64, List.flatMap_cons] at ih ⊢
      rw [harith, List.getElem?_append_right (Nat.le_add_right _ _), Nat.add_sub_cancel_left]
      exact ih L (fun e' he' => hL e' (List.Mem.tail _ he')) s' e p hs hp

/-- Fixture instance whose tokenizer hands back two one-token encodings
for any batch, so a one-text batch flattens to 2 elements instead of
`1 × 1`. -/
def mismatchTE : TextEmbedding :=
  TextEmbedding.new (fun _ _ => .ok [⟨[1], [1], [0]⟩, ⟨[2], [1], [0]⟩]) plainSession

/-- Claim C8: the per-batch tensor assembly.  First conjunct: the
reshape inside `embedBatch` is checked against the shape
(batch length, first encoding's padded length), and whenever the
flattened array length differs from that product the batch fails with
the shape error (`Array::from_shape_vec` + `?`).  Second conjunct: the
flattened arrays are laid out row-major — for encodings of uniform
length `L`, the element at flat index `s * L + p` is exactly element
`p` of sequence `s`, widened from `u32` to a signed 64-bit value
(`Int.ofNat` embedding, always exact).  Third conjunct: `from_shape_vec`
fails precisely when the flattened length differs from rows × cols. -/
theorem claim_C8_tensor_assembly :
    (∀ (fo : FloatOps) (self : TextEmbedding) (b : List String) (e0 : Encoding)
        (rest : List Encoding),
      self.tokenizer b true = .ok (e0 :: rest) →
      (flattenI64 Encoding.ids (e0 :: rest)).length ≠ b.length * e0.len →
      embedBatch fo self b = .err .shape) ∧
    (∀ (f : Encoding → List Nat) (es : List Encoding) (L : Nat),
      (∀ e ∈ es, (f e).length = L) →
      ∀ (s : Nat) (e : Encoding) (p : Nat), es[s]? = some e → p < L →
        (flattenI64 f es)[s * L + p]? = ((f e)[p]?).map Int.ofNat) ∧
    (∀ (rows cols : Nat) (v : List Int),
      from_shape_vec rows cols v = .error () ↔ v.length ≠ rows * cols) := by
  refine ⟨?_, fun f es L hL => flattenI64_getElem? f es L hL, ?_⟩
  · intro fo self b e0 rest htok hne
    simp only [embedBatch, htok]
    rw [show from_shape_vec b.length e0.len (flattenI64 Encoding.ids (e0 :: rest)) =
      .error () from by simp [from_shape_vec, hne]]
  · intro rows cols v
    by_cases h : v.length = rows * cols <;> simp [from_shape_vec, h]

theorem claim_C8_tensor_assembly_witness :
    embedBatch sqrtZero mismatchTE ["a"] = .err .shape :=
  claim_C8_tensor_assembly.1 sqrtZero mismatchTE ["a"] ⟨[1], [1], [0]⟩ [⟨[2], [1], [0]⟩]
    rfl (by decide)

theorem collectUnwrap_ne_err {ε α : Type} :
    ∀ (rs : List (Outcome ε (List α))) (e : ε), collectUnwrap rs ≠ .err e := by
  intro rs
  induction rs with
  | nil =>
    intro e h
    simp [collectUnwrap] at h
  | cons r rest ih =>
    intro e h
    cases r with
    | ok l =>
      simp only [collectUnwrap] at h
      cases hrec : collectUnwrap rest with
      | ok ls => rw [hrec] at h; cases h
      | err e' => rw [hrec] at h; cases h
      | panic => rw [hrec] at h; cases h
    | err e' => simp [collectUnwrap] at h
    | panic => simp [collectUnwrap] at h

theorem collectUnwrap_ok_iff {ε α : Type} :
    ∀ (rs : List (Outcome ε (List α))) (l : List α),
      collectUnwrap rs = .ok l ↔
        (∀ r ∈ rs, ∃ x, r = .ok x) ∧ l = (rs.map okList).flatten := by
  intro rs
  induction rs with
  | nil =>
    intro l
    simp [collectUnwrap, eq_comm]
  | cons r rest ih =>
    intro l
    cases r with
    | ok x =>
      simp only [collectUnwrap]
      cases hrec : collectUnwrap rest with
      | ok ls =>
        obtain ⟨hall, hflat⟩ := (ih ls).mp hrec
        constructor
        · intro h
          cases h
          refine ⟨?_, ?_⟩
          · intro r hr
            rcases List.mem_cons.mp hr with hr | hr
            · exact ⟨x, hr⟩
            · exact hall r hr
          · simp only [List.map_cons, List.flatten_cons, okList]
            rw [← hflat]
        · rintro ⟨-, hl⟩
          simp only [List.map_cons, List.flatten_cons, okList] at hl
          rw [← hflat] at hl
          rw [hl]
      | err e' =>
        constructor
        · intro h
          cases h
        · rintro ⟨hall, -⟩
          have : collectUnwrap rest = .ok ((rest.map okList).flatten) :=
            (ih _).mpr ⟨fun r hr => hall r (List.Mem.tail _ hr), rfl⟩
          rw [hrec] at this
          cases this
      | panic =>
        constructor
        · intro h
          cases h
        · rintro ⟨hall, -⟩
          have : collectUnwrap rest = .ok ((rest.map okList).flatten) :=
            (ih _).mpr ⟨fun r hr => hall r (List.Mem.tail _ hr), rfl⟩
          rw [hrec] at this
          cases this
    | err e' =>
      simp only [collectUnwrap]
      constructor
      · intro h
        cases h
      · rintro ⟨hall, -⟩
        obtain ⟨x, hx⟩ := hall _ (List.Mem.head _)
        cases hx
    | panic =>
      simp only [collectUnwrap]
      constructor
      · intro h
        cases h
      · rintro ⟨hall, -⟩
        obtain ⟨x, hx⟩ := hall _ (List.Mem.head _)
        cases hx

theorem collectUnwrap_panic_of_mem {ε α : Type} :
    ∀ (rs : List (Outcome ε (List α))) (r : Outcome ε (List α)), r ∈ rs →
      (∀ x, r ≠ .ok x) → collectUnwrap rs = .panic := by
  intro rs
  induction rs with
  | nil =>
    intro r hr
    simp at hr
  | cons head rest ih =>
    intro r hr hne
    rcases List.mem_cons.mp hr with heq | hmem
    · subst heq
      cases r with
      | ok x => exact absurd rfl (hne x)
      | err e => simp [collectUnwrap]
      | panic => simp [collectUnwrap]
    · cases head with
      | ok x =>
        simp only [collectUnwrap]
        rw [ih r hmem hne]
      | err e => simp [collectUnwrap]
      | panic => simp [collectUnwrap]

theorem from_shape_vec_ok_length (rows cols : Nat) (v : List Int) (m : Matrix)
    (hm : from_shape_vec rows cols v = .ok m) : m.length = rows := by
  simp only [from_shape_vec] at hm
  split at hm
  · cases hm
    simp
  · cases hm

theorem embedBatch_ok_length (fo : FloatOps) (self : TextEmbedding)
    (hRun : ∀ (inputs : List (String × Matrix)) (outputs : List (String × Tensor3)),
      self.session.run inputs = .ok outputs →
      ∀ (td : Tensor3) (m : Matrix), List.lookup "last_hidden_state" outputs = some td →
        List.lookup "input_ids" inputs = some m → td.length = m.length)
    (batch : List String) (embs : List Embedding)
    (h : embedBatch fo self batch = .ok embs) : embs.length = batch.length := by
  simp only [embedBatch] at h
  cases htok : self.tokenizer batch true with
  | error e => rw [htok] at h; cases h
  | ok encodings =>
  rw [htok] at h
  cases encodings with
  | nil => cases h
  | cons e0 rest =>
  simp only at h
  cases h1 : from_shape_vec batch.length e0.len (flattenI64 Encoding.ids (e0 :: rest)) with
  | error e => rw [h1] at h; cases h
  | ok ids_m =>
  rw [h1] at h
  cases h2 : from_shape_vec batch.length e0.len
      (flattenI64 Encoding.attention_mask (e0 :: rest)) with
  | error e => rw [h2] at h; cases h
  | ok mask_m =>
  rw [h2] at h
  cases h3 : from_shape_vec batch.length e0.len (flattenI64 Encoding.type_ids (e0 :: rest)) with
  | error e => rw [h3] at h; cases h
  | ok type_m =>
  rw [h3] at h
  simp only at h
  cases hrun : self.session.run
      (sessionInputs self.need_token_type_ids ids_m mask_m type_m) with
  | error e => rw [hrun] at h; cases h
  | ok outputs =>
  rw [hrun] at h
  simp only at h
  cases hlook : List.lookup "last_hidden_state" outputs with
  | none => rw [hlook] at h; cases h
  | some output_data =>
  rw [hlook] at h
  simp only at h
  split at h
  · cases h
    have hm : List.lookup "input_ids"
        (sessionInputs self.need_token_type_ids ids_m mask_m type_m) = some ids_m := by
      simp [sessionInputs, List.lookup]
    have hlen := hRun _ _ hrun output_data ids_m hlook hm
    rw [List.length_map, hlen, from_shape_vec_ok_length _ _ _ _ h1]
  · cases h

/-- Claim C1: whenever `embed` returns, it returns exactly one
embedding per input text, in input order.  Formally, under the engine
contract that the returned "last_hidden_state" tensor has as many rows
as the "input_ids" tensor it was given: for every positive batch size
(including 1 and sizes exceeding the input length), if `embed` returns
`Ok l` then `l` has one entry per text and `l` is exactly the batch-order
concatenation of the per-batch embedding lists, each of which has one
entry per text of its batch in batch-local order — the i-th output is
the embedding its batch computed at the i-th text's position.  Worker
finish order cannot enter: rayon's indexed collect reassembles results
by chunk index, which the `List.map` over `chunksList` models. -/
theorem claim_C1_order_preservation (fo : FloatOps) (self : TextEmbedding)
    (hRun : ∀ (inputs : List (String × Matrix)) (outputs : List (String × Tensor3)),
      self.session.run inputs = .ok outputs →
      ∀ (td : Tensor3) (m : Matrix), List.lookup "last_hidden_state" outputs = some td →
        List.lookup "input_ids" inputs = some m → td.length = m.length)
    (texts : List String) (B : Nat) (hB : 0 < B) (l : List Embedding)
    (h : TextEmbedding.embed fo self texts (some B) = .ok l) :
    l.length = texts.length ∧
    (∀ b ∈ chunksList B texts, ∃ embs, embedBatch fo self b = .ok embs ∧
      embs.length = b.length) ∧
    l = ((chunksList B texts).map (fun b => okList (embedBatch fo self b))).flatten := by
  simp only [TextEmbedding.embed, Option.getD_some] at h
  rw [if_neg (by omega)] at h
  obtain ⟨hall, hflat⟩ := (collectUnwrap_ok_iff _ l).mp h
  rw [List.map_map] at hflat
  have hbatches : ∀ b ∈ chunksList B texts, ∃ embs, embedBatch fo self b = .ok embs ∧
      embs.length = b.length := by
    intro b hb
    obtain ⟨embs, hembs⟩ := hall (embedBatch fo self b) (List.mem_map_of_mem _ hb)
    exact ⟨embs, hembs, embedBatch_ok_length fo self hRun b embs hembs⟩
  refine ⟨?_, hbatches, hflat⟩
  have hcongr : (chunksList B texts).map (List.length ∘ (okList ∘ embedBatch fo self))
      = (chunksList B texts).map List.length := by
    apply List.map_congr_left
    intro b hb
    obtain ⟨embs, hok, hlen⟩ := hbatches b hb
    simp [Function.comp, hok, okList, hlen]
  rw [hflat, List.length_flatten, List.map_map, hcongr, ← List.length_flatten,
    chunksList_flatten]

/-- Fixture engine for the C1 witness: echoes one sequence of one
empty hidden row per input row, so every contract hypothesis holds
definitionally. -/
def witnessSession : Session :=
  ⟨["input_ids", "attention_mask"],
   fun inp => .ok [("last_hidden_state",
     ((List.lookup "input_ids" inp).getD []).map (fun _ => [([] : List ℚ)]))]⟩

/-- Fixture instance for the C1 witness: every text encodes to a single
one-token encoding. -/
def witnessTE : TextEmbedding :=
  TextEmbedding.new (fun ts _ => .ok (ts.map (fun _ => ⟨[7], [1], [0]⟩))) witnessSession

theorem claim_C1_order_preservation_witness :
    ([[], [], []] : List Embedding).length = (["a", "b", "c"] : List String).length :=
  (claim_C1_order_preservation sqrtZero witnessTE
    (by
      intro inputs outputs hrun td m hlook hm
      cases hrun
      simp only [List.lookup] at hlook
      cases hlook
      simp [hm])
    ["a", "b", "c"] 2 (by norm_num) [[], [], []] (by decide)).1

/-- Claim C2, amended to what the code does.  The claim as frozen says
a failing batch step surfaces to the caller "as a distinguishable error
value"; in the source every such failure is unwrapped
(`encode_batch(..).unwrap()` at line 399, `result.unwrap()` at line
459), so the call aborts by panic and returns no value at all — an
`Err` is never produced (first conjunct).  The no-partial-results half
of the claim is true and is kept: an `Ok` is returned only when every
batch succeeded, and it carries exactly the batch-order concatenation
of all per-batch results (second conjunct); if any batch fails in any
way, the whole call panics and returns nothing (third conjunct). -/
theorem claim_C2_failure_panics_no_partial_results (fo : FloatOps) (self : TextEmbedding)
    (texts : List String) (batch_size : Option Nat) :
    (∀ e : EmbedError, TextEmbedding.embed fo self texts batch_size ≠ .err e) ∧
    (∀ l : List Embedding, TextEmbedding.embed fo self texts batch_size = .ok l →
      (∀ b ∈ chunksList (batch_size.getD DEFAULT_BATCH_SIZE) texts,
        ∃ embs, embedBatch fo self b = .ok embs) ∧
      l = ((chunksList (batch_size.getD DEFAULT_BATCH_SIZE) texts).map
        (fun b => okList (embedBatch fo self b))).flatten) ∧
    (∀ b ∈ chunksList (batch_size.getD DEFAULT_BATCH_SIZE) texts,
      (∀ embs : List Embedding, embedBatch fo self b ≠ .ok embs) →
      TextEmbedding.embed fo self texts batch_size = .panic) := by
  by_cases hbs : batch_size.getD DEFAULT_BATCH_SIZE = 0
  · refine ⟨?_, ?_, ?_⟩
    · intro e h
      simp only [TextEmbedding.embed, hbs, if_true] at h
      cases h
    · intro l h
      simp only [TextEmbedding.embed, hbs, if_true] at h
      cases h
    · intro b _ _
      simp only [TextEmbedding.embed, hbs, if_true]
  · refine ⟨?_, ?_, ?_⟩
    · intro e h
      simp only [TextEmbedding.embed] at h
      rw [if_neg hbs] at h
      exact collectUnwrap_ne_err _ e h
    · intro l h
      simp only [TextEmbedding.embed] at h
      rw [if_neg hbs] at h
      obtain ⟨hall, hflat⟩ := (collectUnwrap_ok_iff _ l).mp h
      rw [List.map_map] at hflat
      exact ⟨fun b hb => hall (embedBatch fo self b) (List.mem_map_of_mem _ hb), hflat⟩
    · intro b hb hne
      simp only [TextEmbedding.embed]
      rw [if_neg hbs]
      exact collectUnwrap_panic_of_mem _ (embedBatch fo self b)
        (List.mem_map_of_mem _ hb) hne

/-- Fixture for the C2 counterexample and witness: the tokenizer's
batch-encode fails on every input. -/
def failTE : TextEmbedding := TextEmbedding.new (fun _ _ => .error ()) plainSession

theorem claim_C2_failure_panics_no_partial_results_witness :
    TextEmbedding.embed sqrtZero failTE ["a"] (some 1) = .panic :=
  (claim_C2_failure_panics_no_partial_results sqrtZero failTE ["a"] (some 1)).2.2
    ["a"] (List.Mem.head _)
    (fun embs h => by
      rw [show embedBatch sqrtZero failTE ["a"] = .panic from rfl] at h
      cases h)

/-- Claim C2 as frozen is false on the code: with a tokenizer whose
batch-encode fails, `embed` does not return any error value — it
panics, returning neither `Ok` nor `Err` (so the failure reaches the
caller as an unwinding panic, not as a `Result` error the caller can
match on). -/
theorem claim_C2_counterexample :
    TextEmbedding.embed sqrtZero failTE ["a"] (some 1) = .panic ∧
    TextEmbedding.embed sqrtZero failTE ["a"] (some 1) ≠ .err .shape ∧
    TextEmbedding.embed sqrtZero failTE ["a"] (some 1) ≠ .err .inference := by
  refine ⟨by decide, by decide, by decide⟩

end FastEmbed
